import Mathlib

/-!
Verification development for `pagedb.py`: a shallow embedding of the
`CapturedPage` record model (lazy memoized decompression and content
extraction, JSON serialization via `dump`) and the `PageDB.get_pages`
streaming retrieval, together with theorems about the embedded code.

Bytes are modelled as `List Nat`; the composite decompress-and-decode
operations (`zlib.decompress` + `.decode("utf-8")` + `json.loads`), which
live outside this repository, are opaque function parameters returning
`Option` (with `none` modelling a raised exception).  Each lazy accessor
is a state transformer that also reports how many times it invoked the
underlying expensive operation, so that memoization ("work exactly once")
is expressible.
-/

/-- A JSON value, as produced by `json.loads` and consumed by `json.dumps`. -/
inductive Json where
  | null : Json
  | bool (b : Bool) : Json
  | num (n : Int) : Json
  | str (s : String) : Json
  | arr (xs : List Json) : Json
  | obj (kvs : List (String × Json)) : Json

/-- Hex digit for string escaping. -/
def hexDigit (n : Nat) : Char :=
  if n < 10 then Char.ofNat (48 + n) else Char.ofNat (87 + (n % 16))

/-- Four-digit hex rendering of a code point, as in `\uXXXX` escapes. -/
def hex4 (n : Nat) : String :=
  String.mk [hexDigit ((n / 4096) % 16), hexDigit ((n / 256) % 16),
             hexDigit ((n / 16) % 16), hexDigit (n % 16)]

/-- Escape one character the way `json.dumps` (default `ensure_ascii`) does. -/
def escapeChar (c : Char) : String :=
  if c = '"' then "\\\""
  else if c = '\\' then "\\\\"
  else if c = '\n' then "\\n"
  else if c = '\r' then "\\r"
  else if c = '\t' then "\\t"
  else if c.toNat < 32 ∨ c.toNat > 126 then "\\u" ++ hex4 c.toNat
  else String.mk [c]

/-- Render a string as a JSON string literal. -/
def renderString (s : String) : String :=
  "\"" ++ String.join (s.data.map escapeChar) ++ "\""

/-- Strict lexicographic comparison of character sequences by code
point: the order Python uses to compare `str` values (hence the order of
`sort_keys=True` and of `ORDER BY` under byte-wise collation). -/
def strLtChars : List Char → List Char → Bool
  | [], [] => false
  | [], _ :: _ => true
  | _ :: _, [] => false
  | a :: as, b :: bs =>
    if a.toNat < b.toNat then true
    else if b.toNat < a.toNat then false
    else strLtChars as bs

/-- Reflexive lexicographic comparison of character sequences. -/
def strLeChars : List Char → List Char → Bool
  | [], _ => true
  | _ :: _, [] => false
  | a :: as, b :: bs =>
    if a.toNat < b.toNat then true
    else if b.toNat < a.toNat then false
    else strLeChars as bs

/-- Insert a rendered key/value pair into a list sorted by key
(lexicographic string order), as used to realize `sort_keys=True`. -/
def insertPair (x : String × String) : List (String × String) → List (String × String)
  | [] => [x]
  | y :: ys =>
    if strLeChars x.1.data y.1.data then x :: y :: ys else y :: insertPair x ys

/-- Insertion sort of rendered key/value pairs by key. -/
def sortPairs : List (String × String) → List (String × String)
  | [] => []
  | x :: xs => insertPair x (sortPairs xs)

/-- Join rendered `key: value` members with `", "`, `json.dumps` style. -/
def joinMembers (l : List (String × String)) : String :=
  String.intercalate ", " (l.map (fun kv => renderString kv.1 ++ ": " ++ kv.2))

mutual
/-- Render a JSON value exactly as `json.dumps(v, sort_keys=True)` does:
default separators `", "` and `": "`, object keys sorted lexicographically
at every level. -/
def renderJson : Json → String
  | .null => "null"
  | .bool b => if b then "true" else "false"
  | .num n => toString n
  | .str s => renderString s
  | .arr xs => "[" ++ String.intercalate ", " (renderList xs) ++ "]"
  | .obj kvs => "\x7b" ++ joinMembers (sortPairs (renderPairs kvs)) ++ "\x7d"

/-- Render each element of a JSON array. -/
def renderList : List Json → List String
  | [] => []
  | x :: xs => renderJson x :: renderList xs

/-- Render the value of each object member, keeping its key. -/
def renderPairs : List (String × Json) → List (String × String)
  | [] => []
  | (k, v) :: rest => (k, renderJson v) :: renderPairs rest
end

/-- A timestamp as stored in `access_time` (a `datetime.datetime`). -/
structure AccessTime where
  year : Nat
  month : Nat
  day : Nat
  hour : Nat
  minute : Nat
  second : Nat
deriving DecidableEq, Repr

/-- Left-pad a numeral with zeroes to the given width. -/
def padNum (width n : Nat) : String :=
  let s := toString n
  String.mk (List.replicate (width - s.length) '0') ++ s

/-- Model of `datetime.isoformat(sep)`: date and time joined by `sep`. -/
def AccessTime.isoformat (t : AccessTime) (sep : String) : String :=
  padNum 4 t.year ++ "-" ++ padNum 2 t.month ++ "-" ++ padNum 2 t.day ++ sep ++
  padNum 2 t.hour ++ ":" ++ padNum 2 t.minute ++ ":" ++ padNum 2 t.second

/-- A byte string (compressed blob, screenshot, ...). -/
abbrev Blob := List Nat

/-- The triple computed by the external `html_extractor.ExtractedContent`
collaborator. -/
structure ExtractedContent where
  text_content : String
  resources : List String
  links : List String
deriving DecidableEq, Repr

/-- Counts of invocations of the underlying expensive operations performed
during one call: capture-log decompress+parse, html decompress, and
`ExtractedContent` construction. -/
structure Counts where
  log : Nat
  html : Nat
  extract : Nat
deriving DecidableEq, Repr

/-- Pointwise sum of counts. -/
def Counts.add (a b : Counts) : Counts :=
  ⟨a.log + b.log, a.html + b.html, a.extract + b.extract⟩

/-- The `CapturedPage` class: one row of the `captured_pages` table.  The slots
`_capture_log` and `_html_content` hold either the still-compressed blob
(`Sum.inl`) or the decoded value (`Sum.inr`), mirroring the Python
attribute that is overwritten in place upon first access. -/
structure CapturedPage where
  locale : String
  url : String
  access_time : AccessTime
  result : String
  detail : Option String
  redir_url : String
  screenshot : Option Blob
  _capture_log : Blob ⊕ Json
  _capture_log_unpacked : Bool
  _html_content : Blob ⊕ String
  _html_content_unpacked : Bool
  _extracted : Option ExtractedContent

/-- Constructor `CapturedPage.__init__`: stores the immediate fields, keeps both
compressed blobs packed, and leaves the derived triple uncomputed. -/
def CapturedPage.init (locale url : String) (access_time : AccessTime)
    (result : String) (detail : Option String) (redir_url : String)
    (capture_log html_content : Blob) (screenshot : Option Blob) :
    CapturedPage :=
  { locale := locale
    url := url
    access_time := access_time
    result := result
    detail := detail
    redir_url := redir_url
    screenshot := screenshot
    _capture_log := Sum.inl capture_log
    _capture_log_unpacked := false
    _html_content := Sum.inl html_content
    _html_content_unpacked := false
    _extracted := none }

/-- The `capture_log` property: on first access decompress and
`json.loads` the stored blob (`decodeLog` models that composite, `none`
modelling a raised exception), overwrite the slot with the decoded value
and set the unpacked flag; afterwards return the slot content directly.
Returns the produced value (or an error), the updated record, and the
number of decompress+parse invocations made by this call. -/
def CapturedPage.capture_log (decodeLog : Blob → Option Json)
    (p : CapturedPage) : Except Unit (Blob ⊕ Json) × CapturedPage × Nat :=
  if p._capture_log_unpacked then
    (.ok p._capture_log, p, 0)
  else
    match p._capture_log with
    | .inl b =>
      match decodeLog b with
      | some v =>
        (.ok (Sum.inr v),
         { p with _capture_log := Sum.inr v, _capture_log_unpacked := true },
         1)
      | none => (.error (), p, 1)
    | .inr _ => (.error (), p, 1)

/-- The `html_content` property: same contract as `capture_log`, with
`decodeHtml` modelling `zlib.decompress(...).decode("utf-8")`. -/
def CapturedPage.html_content (decodeHtml : Blob → Option String)
    (p : CapturedPage) : Except Unit (Blob ⊕ String) × CapturedPage × Nat :=
  if p._html_content_unpacked then
    (.ok p._html_content, p, 0)
  else
    match p._html_content with
    | .inl b =>
      match decodeHtml b with
      | some v =>
        (.ok (Sum.inr v),
         { p with _html_content := Sum.inr v, _html_content_unpacked := true },
         1)
      | none => (.error (), p, 1)
    | .inr _ => (.error (), p, 1)

/-- Method `_do_extraction`: if the triple is not yet computed, read the
`html_content` property (which may itself decompress) and invoke the
external extractor with `(self.redir_url, self.html_content)`.  Returns
the updated record and the counts of work performed. -/
def CapturedPage.do_extraction (decodeHtml : Blob → Option String)
    (extractor : String → Blob ⊕ String → ExtractedContent)
    (p : CapturedPage) : Except Unit Unit × CapturedPage × Counts :=
  match p._extracted with
  | some _ => (.ok (), p, ⟨0, 0, 0⟩)
  | none =>
    match p.html_content decodeHtml with
    | (.ok v, p1, c) =>
      (.ok (), { p1 with _extracted := some (extractor p1.redir_url v) },
       ⟨0, c, 1⟩)
    | (.error e, p1, c) => (.error e, p1, ⟨0, c, 0⟩)

/-- The `text_content` property: run `_do_extraction`, then project the
cached triple. -/
def CapturedPage.text_content (decodeHtml : Blob → Option String)
    (extractor : String → Blob ⊕ String → ExtractedContent)
    (p : CapturedPage) : Except Unit String × CapturedPage × Counts :=
  match p.do_extraction decodeHtml extractor with
  | (.ok _, p1, c) =>
    match p1._extracted with
    | some e => (.ok e.text_content, p1, c)
    | none => (.error (), p1, c)
  | (.error e, p1, c) => (.error e, p1, c)

/-- The `resources` property: run `_do_extraction`, then project the
cached triple. -/
def CapturedPage.resources (decodeHtml : Blob → Option String)
    (extractor : String → Blob ⊕ String → ExtractedContent)
    (p : CapturedPage) : Except Unit (List String) × CapturedPage × Counts :=
  match p.do_extraction decodeHtml extractor with
  | (.ok _, p1, c) =>
    match p1._extracted with
    | some e => (.ok e.resources, p1, c)
    | none => (.error (), p1, c)
  | (.error e, p1, c) => (.error e, p1, c)

/-- The `links` property: run `_do_extraction`, then project the cached
triple. -/
def CapturedPage.links (decodeHtml : Blob → Option String)
    (extractor : String → Blob ⊕ String → ExtractedContent)
    (p : CapturedPage) : Except Unit (List String) × CapturedPage × Counts :=
  match p.do_extraction decodeHtml extractor with
  | (.ok _, p1, c) =>
    match p1._extracted with
    | some e => (.ok e.links, p1, c)
    | none => (.error (), p1, c)
  | (.error e, p1, c) => (.error e, p1, c)

/-- The dynamic value stored in the `val` dict built by `dump`: either a
JSON-serializable value or a still-compressed byte blob (which
`json.dumps` would reject with a `TypeError`). -/
inductive DVal where
  | jv (j : Json)
  | blob (b : Blob)

/-- The five keyword flags of `dump`. -/
structure Flags where
  capture_log : Bool
  html_content : Bool
  text_content : Bool
  resources : Bool
  links : Bool
deriving DecidableEq, Repr

/-- Python `val[k] = v` on an association list that already holds key `k`:
replace the value in place, keeping the dict's insertion order. -/
def setk (l : List (String × DVal)) (k : String) (v : DVal) :
    List (String × DVal) :=
  l.map (fun kv => if kv.1 = k then (k, v) else kv)

/-- The dynamic value returned by the `capture_log` property. -/
def slotLogVal : Blob ⊕ Json → DVal
  | .inl b => .blob b
  | .inr j => .jv j

/-- The dynamic value returned by the `html_content` property. -/
def slotHtmlVal : Blob ⊕ String → DVal
  | .inl b => .blob b
  | .inr s => .jv (.str s)

/-- A possibly-`None` string as a JSON value. -/
def optStr : Option String → Json
  | some s => .str s
  | none => .null

/-- The dict literal at the top of `dump`, in its insertion order. -/
def CapturedPage.dump_init_val (p : CapturedPage) : List (String × DVal) :=
  [("0_url", .jv (.str p.url)),
   ("1_locale", .jv (.str p.locale)),
   ("2_access_time", .jv (.str (p.access_time.isoformat " "))),
   ("3_result", .jv (.str p.result)),
   ("4_detail", .jv (optStr p.detail)),
   ("5_redir", .jv .null),
   ("6_log", .jv .null),
   ("7_html", .jv .null),
   ("7_text", .jv .null),
   ("7_rsrcs", .jv .null),
   ("7_links", .jv .null)]

/-- Gate `if capture_log: val["6_log"] = self.capture_log`. -/
def gatedLog (decodeLog : Blob → Option Json) (flag : Bool)
    (val : List (String × DVal)) (p : CapturedPage) :
    Except Unit (List (String × DVal)) × CapturedPage × Counts :=
  if flag then
    match p.capture_log decodeLog with
    | (.ok v, p1, n) => (.ok (setk val "6_log" (slotLogVal v)), p1, ⟨n, 0, 0⟩)
    | (.error e, p1, n) => (.error e, p1, ⟨n, 0, 0⟩)
  else (.ok val, p, ⟨0, 0, 0⟩)

/-- Gate `if html_content: val["7_html"] = self.html_content`. -/
def gatedHtml (decodeHtml : Blob → Option String) (flag : Bool)
    (val : List (String × DVal)) (p : CapturedPage) :
    Except Unit (List (String × DVal)) × CapturedPage × Counts :=
  if flag then
    match p.html_content decodeHtml with
    | (.ok v, p1, n) => (.ok (setk val "7_html" (slotHtmlVal v)), p1, ⟨0, n, 0⟩)
    | (.error e, p1, n) => (.error e, p1, ⟨0, n, 0⟩)
  else (.ok val, p, ⟨0, 0, 0⟩)

/-- Gate `if text_content: val["7_text"] = self.text_content`. -/
def gatedText (decodeHtml : Blob → Option String)
    (extractor : String → Blob ⊕ String → ExtractedContent) (flag : Bool)
    (val : List (String × DVal)) (p : CapturedPage) :
    Except Unit (List (String × DVal)) × CapturedPage × Counts :=
  if flag then
    match p.text_content decodeHtml extractor with
    | (.ok s, p1, c) => (.ok (setk val "7_text" (.jv (.str s))), p1, c)
    | (.error e, p1, c) => (.error e, p1, c)
  else (.ok val, p, ⟨0, 0, 0⟩)

/-- Gate `if resources: val["7_rsrcs"] = self.resources`. -/
def gatedRsrcs (decodeHtml : Blob → Option String)
    (extractor : String → Blob ⊕ String → ExtractedContent) (flag : Bool)
    (val : List (String × DVal)) (p : CapturedPage) :
    Except Unit (List (String × DVal)) × CapturedPage × Counts :=
  if flag then
    match p.resources decodeHtml extractor with
    | (.ok l, p1, c) =>
      (.ok (setk val "7_rsrcs" (.jv (.arr (l.map .str)))), p1, c)
    | (.error e, p1, c) => (.error e, p1, c)
  else (.ok val, p, ⟨0, 0, 0⟩)

/-- Gate `if links: val["7_links"] = self.links`. -/
def gatedLinks (decodeHtml : Blob → Option String)
    (extractor : String → Blob ⊕ String → ExtractedContent) (flag : Bool)
    (val : List (String × DVal)) (p : CapturedPage) :
    Except Unit (List (String × DVal)) × CapturedPage × Counts :=
  if flag then
    match p.links decodeHtml extractor with
    | (.ok l, p1, c) =>
      (.ok (setk val "7_links" (.jv (.arr (l.map .str)))), p1, c)
    | (.error e, p1, c) => (.error e, p1, c)
  else (.ok val, p, ⟨0, 0, 0⟩)

/-- The `val` dict as it stands when `dump` reaches the `json.dumps`
call: the literal, then the redirect update, then the five flag-gated
updates in source order, each aborting the method on an exception.
Returns the dict (or the propagated error), the updated record, and the
total work counts. -/
def CapturedPage.dump_val (decodeLog : Blob → Option Json)
    (decodeHtml : Blob → Option String)
    (extractor : String → Blob ⊕ String → ExtractedContent) (flags : Flags)
    (p : CapturedPage) :
    Except Unit (List (String × DVal)) × CapturedPage × Counts :=
  let v0 := p.dump_init_val
  let v1 := if p.redir_url = p.url then v0
            else setk v0 "5_redir" (.jv (.str p.redir_url))
  match gatedLog decodeLog flags.capture_log v1 p with
  | (.error e, p1, c1) => (.error e, p1, c1)
  | (.ok v2, p1, c1) =>
    match gatedHtml decodeHtml flags.html_content v2 p1 with
    | (.error e, p2, c2) => (.error e, p2, c1.add c2)
    | (.ok v3, p2, c2) =>
      match gatedText decodeHtml extractor flags.text_content v3 p2 with
      | (.error e, p3, c3) => (.error e, p3, (c1.add c2).add c3)
      | (.ok v4, p3, c3) =>
        match gatedRsrcs decodeHtml extractor flags.resources v4 p3 with
        | (.error e, p4, c4) => (.error e, p4, ((c1.add c2).add c3).add c4)
        | (.ok v5, p4, c4) =>
          match gatedLinks decodeHtml extractor flags.links v5 p4 with
          | (.error e, p5, c5) =>
            (.error e, p5, (((c1.add c2).add c3).add c4).add c5)
          | (.ok v6, p5, c5) =>
            (.ok v6, p5, (((c1.add c2).add c3).add c4).add c5)

/-- A dict value as `json.dumps` sees it; `none` for a byte blob, which
`json.dumps` cannot serialize. -/
def dvalToJson : DVal → Option Json
  | .jv j => some j
  | .blob _ => none

/-- All dict values as JSON, or `none` if any is unserializable. -/
def dvalsToJson : List (String × DVal) → Option (List (String × Json))
  | [] => some []
  | (k, v) :: rest =>
    match dvalToJson v, dvalsToJson rest with
    | some j, some js => some ((k, j) :: js)
    | _, _ => none

/-- Method `dump`: build the dict, then write
`json.dumps(val, sort_keys=True).encode("utf-8")` followed by `b"\n"`.
Returns the bytes written to `fp` (as a string), the updated record, and
the work counts. -/
def CapturedPage.dump (decodeLog : Blob → Option Json)
    (decodeHtml : Blob → Option String)
    (extractor : String → Blob ⊕ String → ExtractedContent) (flags : Flags)
    (p : CapturedPage) : Except Unit String × CapturedPage × Counts :=
  match p.dump_val decodeLog decodeHtml extractor flags with
  | (.ok val, p1, c) =>
    match dvalsToJson val with
    | some pairs => (.ok (renderJson (Json.obj pairs) ++ "\n"), p1, c)
    | none => (.error (), p1, c)
  | (.error e, p1, c) => (.error e, p1, c)

/-- One row of the SELECT in `get_pages`, after the LEFT JOINs have
resolved `u.url`, `r.url` and `d.detail`. -/
structure Row where
  locale : String
  url : String
  access_time : AccessTime
  result : String
  detail : Option String
  redir_url : String
  capture_log : Blob
  html_content : Blob
  screenshot : Option Blob
deriving DecidableEq, Repr

/-- Build `CapturedPage(*row)` as performed by the generator body. -/
def Row.toCapturedPage (r : Row) : CapturedPage :=
  CapturedPage.init r.locale r.url r.access_time r.result r.detail
    r.redir_url r.capture_log r.html_content r.screenshot

/-- The comparison realized by `ORDER BY u.url, c.locale`: ascending by
URL, then by locale. -/
def rowLe (a b : Row) : Prop :=
  strLtChars a.url.data b.url.data = true ∨
    (a.url = b.url ∧ strLeChars a.locale.data b.locale.data = true)

instance (a b : Row) : Decidable (rowLe a b) := by
  unfold rowLe
  infer_instance

/-- Insert a row into a list sorted by `rowLe`. -/
def insertRow (x : Row) : List Row → List Row
  | [] => [x]
  | y :: ys => if rowLe x y then x :: y :: ys else y :: insertRow x ys

/-- Sort rows by `(url, locale)` ascending. -/
def sortRows : List Row → List Row
  | [] => []
  | x :: xs => insertRow x (sortRows xs)

/-- Modelled from the spec: the store's execution of the query text that
`get_pages` assembles (the SQL engine is not part of this repository).
`SELECT ... FROM ... [WHERE w] [ORDER BY u.url, c.locale] [LIMIT n]`:
filter by the WHERE condition when one was appended, sort by
`(url, locale)` ascending when `ordered` appended the ORDER BY clause,
then truncate to the LIMIT when one was appended. -/
def runQuery (table : List Row) (wpred : Row → Bool) (hasWhere : Bool)
    (ordered : Bool) (limit : Option Nat) : List Row :=
  let selected := if hasWhere then table.filter wpred else table
  let sorted := if ordered then sortRows selected else selected
  match limit with
  | some n => sorted.take n
  | none => sorted

/-- Generator `PageDB.get_pages`: run the assembled query against the store and
wrap each produced row in a `CapturedPage`.  The WHERE text is modelled
as the predicate `wpred` that the store evaluates, together with the flag
`hasWhere` (`where_clause` nonempty). -/
def PageDB.get_pages (table : List Row) (wpred : Row → Bool)
    (hasWhere ordered : Bool) (limit : Option Nat) : List CapturedPage :=
  (runQuery table wpred hasWhere ordered limit).map Row.toCapturedPage

/-- Modelled from the spec: the state of the `get_pages` generator's
resources — the rows the named cursor has not yet produced, whether that
cursor is still open, and whether the `with self.db` transaction scope is
still held. -/
structure GenState where
  remaining : List Row
  cursor_open : Bool
  scope_held : Bool
deriving DecidableEq, Repr

/-- Modelled from the spec: entering the generator opens the transaction
scope and the named cursor and executes the query. -/
def genStart (rows : List Row) : GenState :=
  ⟨rows, true, true⟩

/-- Modelled from the spec: one pull on the generator.  A remaining row
is yielded; on exhaustion the `for` loop ends, the `with` block is
exited, and both resources are released before `StopIteration`
propagates. -/
def genNext : GenState → Option CapturedPage × GenState
  | ⟨[], _, _⟩ => (none, ⟨[], false, false⟩)
  | ⟨r :: rs, c, s⟩ => (some r.toCapturedPage, ⟨rs, c, s⟩)

/-- Modelled from the spec: finalizing the generator (its `close`, run
when the consumer abandons it or an error propagates) throws
`GeneratorExit` at the suspended `yield`, which exits the `with` block
and releases the cursor and the transaction scope. -/
def genClose (g : GenState) : GenState :=
  { g with cursor_open := false, scope_held := false }

/-- How a consumer's iteration of `get_pages` can end. -/
inductive Outcome where
  | exhaust : Outcome
  | abandonAfter (k : Nat) : Outcome
  | errorAt (k : Nat) : Outcome
deriving DecidableEq, Repr

/-- Pull the generator `n` times, discarding the yielded pages. -/
def genConsume : Nat → GenState → GenState
  | 0, g => g
  | n + 1, g => genConsume n (genNext g).2

/-- Modelled from the spec: a full consumer interaction with the
generator.  Natural exhaustion pulls until `StopIteration`; early
abandonment and an error raised during iteration both finalize the
generator after `k` pulls. -/
def drive (rows : List Row) (o : Outcome) : GenState :=
  match o with
  | .exhaust => genConsume (rows.length + 1) (genStart rows)
  | .abandonAfter k => genClose (genConsume k (genStart rows))
  | .errorAt k => genClose (genConsume k (genStart rows))

/-- The three derived views backed by `_do_extraction`. -/
inductive View where
  | text : View
  | rsrcs : View
  | links : View
deriving DecidableEq, Repr

/-- The value produced by one derived view. -/
inductive ViewVal where
  | text (s : String) : ViewVal
  | rsrcs (l : List String) : ViewVal
  | links (l : List String) : ViewVal
deriving DecidableEq, Repr

/-- One call to one of the three derived-view properties. -/
def CapturedPage.view_step (decodeHtml : Blob → Option String)
    (extractor : String → Blob ⊕ String → ExtractedContent) (v : View)
    (p : CapturedPage) : Except Unit ViewVal × CapturedPage × Counts :=
  match v with
  | .text =>
    match p.text_content decodeHtml extractor with
    | (.ok s, p1, c) => (.ok (.text s), p1, c)
    | (.error e, p1, c) => (.error e, p1, c)
  | .rsrcs =>
    match p.resources decodeHtml extractor with
    | (.ok l, p1, c) => (.ok (.rsrcs l), p1, c)
    | (.error e, p1, c) => (.error e, p1, c)
  | .links =>
    match p.links decodeHtml extractor with
    | (.ok l, p1, c) => (.ok (.links l), p1, c)
    | (.error e, p1, c) => (.error e, p1, c)

/-- A sequence of derived-view calls on one record, collecting every
call's result and the total work counts. -/
def CapturedPage.runViews (decodeHtml : Blob → Option String)
    (extractor : String → Blob ⊕ String → ExtractedContent) :
    List View → CapturedPage →
    List (Except Unit ViewVal) × CapturedPage × Counts
  | [], p => ([], p, ⟨0, 0, 0⟩)
  | v :: vs, p =>
    match p.view_step decodeHtml extractor v with
    | (r, p1, c) =>
      match CapturedPage.runViews decodeHtml extractor vs p1 with
      | (rs, p2, c2) => (r :: rs, p2, c.add c2)

/-- Any one of the five lazy accessors. -/
inductive Accessor where
  | log : Accessor
  | html : Accessor
  | text : Accessor
  | rsrcs : Accessor
  | links : Accessor
deriving DecidableEq, Repr

/-- The record state after one call to the given lazy accessor. -/
def CapturedPage.accessor_step (decodeLog : Blob → Option Json)
    (decodeHtml : Blob → Option String)
    (extractor : String → Blob ⊕ String → ExtractedContent) (a : Accessor)
    (p : CapturedPage) : CapturedPage :=
  match a with
  | .log => (p.capture_log decodeLog).2.1
  | .html => (p.html_content decodeHtml).2.1
  | .text => (p.text_content decodeHtml extractor).2.1
  | .rsrcs => (p.resources decodeHtml extractor).2.1
  | .links => (p.links decodeHtml extractor).2.1

/-- The record state after a sequence of lazy-accessor calls. -/
def CapturedPage.runAccessors (decodeLog : Blob → Option Json)
    (decodeHtml : Blob → Option String)
    (extractor : String → Blob ⊕ String → ExtractedContent) :
    List Accessor → CapturedPage → CapturedPage
  | [], p => p
  | a :: rest, p =>
    CapturedPage.runAccessors decodeLog decodeHtml extractor rest
      (p.accessor_step decodeLog decodeHtml extractor a)

/-! ## Helper definitions used by the theorems -/

/-- The seven immediate fields of a record, as one tuple. -/
def CapturedPage.immediates (p : CapturedPage) :
    String × String × AccessTime × String × Option String × String ×
    Option Blob :=
  (p.locale, p.url, p.access_time, p.result, p.detail, p.redir_url,
   p.screenshot)

/-- The component of the extracted triple that each view returns. -/
def viewAnswer (e : ExtractedContent) : View → ViewVal
  | .text => .text e.text_content
  | .rsrcs => .rsrcs e.resources
  | .links => .links e.links

/-- Dict lookup on the `val` association list. -/
def lookupVal (l : List (String × DVal)) (k : String) : Option DVal :=
  (l.find? (fun kv => kv.1 == k)).map Prod.snd

/-- The eleven keys of the `val` dict, in insertion order. -/
def dumpKeys : List String :=
  ["0_url", "1_locale", "2_access_time", "3_result", "4_detail",
   "5_redir", "6_log", "7_html", "7_text", "7_rsrcs", "7_links"]

/-- All five inclusion flags off (every `dump` keyword at its default). -/
def allFalse : Flags := ⟨false, false, false, false, false⟩

/-- The `val` dict of a record as it stands after the redirect update,
before any flag-gated update. -/
def dumpAllFalseVal (p : CapturedPage) : List (String × DVal) :=
  if p.redir_url = p.url then p.dump_init_val
  else setk p.dump_init_val "5_redir" (.jv (.str p.redir_url))

/-- Model of `json.dumps(val, sort_keys=True)` plus the trailing newline, applied
to a `val` dict (an error when some value is an unserializable blob). -/
def dumpsOf (val : List (String × DVal)) : Except Unit String :=
  match dvalsToJson val with
  | some pairs => .ok (renderJson (Json.obj pairs) ++ "\n")
  | none => .error ()

/-- How many dict entries hold JSON `null`. -/
def countNulls (l : List (String × DVal)) : Nat :=
  l.countP (fun kv => match kv.2 with | .jv .null => true | _ => false)

/-! ## C1: idempotent lazy decode -/

/-- C1. On a record whose compressed slots have not been unpacked and
whose blobs decode successfully, the first call to the `capture_log`
(resp. `html_content`) property performs the decompress+parse work
exactly once and sets the memoization flag, and a second call returns an
equal value, performs no work, and leaves the record unchanged. -/
theorem capture_log_html_content_decode_once
    (decodeLog : Blob → Option Json) (decodeHtml : Blob → Option String)
    (p : CapturedPage) (b bh : Blob) (j : Json) (s : String)
    (hlf : p._capture_log_unpacked = false)
    (hls : p._capture_log = Sum.inl b) (hld : decodeLog b = some j)
    (hhf : p._html_content_unpacked = false)
    (hhs : p._html_content = Sum.inl bh) (hhd : decodeHtml bh = some s) :
    ((p.capture_log decodeLog).1 = .ok (Sum.inr j) ∧
     (p.capture_log decodeLog).2.2 = 1 ∧
     (p.capture_log decodeLog).2.1._capture_log_unpacked = true ∧
     ((p.capture_log decodeLog).2.1.capture_log decodeLog).1 =
       .ok (Sum.inr j) ∧
     ((p.capture_log decodeLog).2.1.capture_log decodeLog).2.2 = 0 ∧
     ((p.capture_log decodeLog).2.1.capture_log decodeLog).2.1 =
       (p.capture_log decodeLog).2.1) ∧
    ((p.html_content decodeHtml).1 = .ok (Sum.inr s) ∧
     (p.html_content decodeHtml).2.2 = 1 ∧
     (p.html_content decodeHtml).2.1._html_content_unpacked = true ∧
     ((p.html_content decodeHtml).2.1.html_content decodeHtml).1 =
       .ok (Sum.inr s) ∧
     ((p.html_content decodeHtml).2.1.html_content decodeHtml).2.2 = 0 ∧
     ((p.html_content decodeHtml).2.1.html_content decodeHtml).2.1 =
       (p.html_content decodeHtml).2.1) := by
  constructor
  · simp only [CapturedPage.capture_log, hlf, hls, hld]
    simp
  · simp only [CapturedPage.html_content, hhf, hhs, hhd]
    simp

/-- Concrete instantiation of `capture_log_html_content_decode_once`. -/
theorem capture_log_html_content_decode_once_holds :
    let dl : Blob → Option Json := fun _ => some (Json.num 1)
    let dh : Blob → Option String := fun _ => some "<p>"
    let p := CapturedPage.init "en" "http://x/" ⟨2014, 3, 5, 12, 30, 9⟩
      "ok" (some "d") "http://y/" [0] [1] none
    ((p.capture_log dl).1 = .ok (Sum.inr (Json.num 1)) ∧
     (p.capture_log dl).2.2 = 1 ∧
     (p.capture_log dl).2.1._capture_log_unpacked = true ∧
     ((p.capture_log dl).2.1.capture_log dl).1 =
       .ok (Sum.inr (Json.num 1)) ∧
     ((p.capture_log dl).2.1.capture_log dl).2.2 = 0 ∧
     ((p.capture_log dl).2.1.capture_log dl).2.1 =
       (p.capture_log dl).2.1) ∧
    ((p.html_content dh).1 = .ok (Sum.inr "<p>") ∧
     (p.html_content dh).2.2 = 1 ∧
     (p.html_content dh).2.1._html_content_unpacked = true ∧
     ((p.html_content dh).2.1.html_content dh).1 = .ok (Sum.inr "<p>") ∧
     ((p.html_content dh).2.1.html_content dh).2.2 = 0 ∧
     ((p.html_content dh).2.1.html_content dh).2.1 =
       (p.html_content dh).2.1) :=
  capture_log_html_content_decode_once _ _ _ [0] [1] (Json.num 1) "<p>"
    rfl rfl rfl rfl rfl rfl

/-! ## C9: decode failure propagates and leaves the record unchanged -/

/-- C9. If decompression/parsing of a compressed slot fails, the
property raises (returns an error) and returns no value, and the record
is exactly as before the call: the memoization flag and the stored blob
are untouched. -/
theorem decode_failure_leaves_record_unchanged
    (decodeLog : Blob → Option Json) (decodeHtml : Blob → Option String)
    (p : CapturedPage) (b bh : Blob)
    (hlf : p._capture_log_unpacked = false)
    (hls : p._capture_log = Sum.inl b) (hld : decodeLog b = none)
    (hhf : p._html_content_unpacked = false)
    (hhs : p._html_content = Sum.inl bh) (hhd : decodeHtml bh = none) :
    p.capture_log decodeLog = (.error (), p, 1) ∧
    p.html_content decodeHtml = (.error (), p, 1) := by
  constructor
  · simp only [CapturedPage.capture_log, hlf, hls, hld]
    simp
  · simp only [CapturedPage.html_content, hhf, hhs, hhd]
    simp

/-- Concrete instantiation of `decode_failure_leaves_record_unchanged`. -/
theorem decode_failure_leaves_record_unchanged_holds :
    let dl : Blob → Option Json := fun _ => none
    let dh : Blob → Option String := fun _ => none
    let p := CapturedPage.init "en" "http://x/" ⟨2014, 3, 5, 12, 30, 9⟩
      "ok" none "http://x/" [0] [1] none
    p.capture_log dl = (.error (), p, 1) ∧
    p.html_content dh = (.error (), p, 1) :=
  decode_failure_leaves_record_unchanged _ _ _ [0] [1]
    rfl rfl rfl rfl rfl rfl

/-! ## C10: lazy accessors never modify the immediate fields -/

/-- Property `capture_log` touches only its own slot and flag. -/
theorem capture_log_immediates (decodeLog : Blob → Option Json)
    (p : CapturedPage) :
    ((p.capture_log decodeLog).2.1).immediates = p.immediates := by
  unfold CapturedPage.capture_log
  split
  · rfl
  · split
    · split <;> rfl
    · rfl

/-- Property `html_content` touches only its own slot and flag. -/
theorem html_content_immediates (decodeHtml : Blob → Option String)
    (p : CapturedPage) :
    ((p.html_content decodeHtml).2.1).immediates = p.immediates := by
  unfold CapturedPage.html_content
  split
  · rfl
  · split
    · split <;> rfl
    · rfl

/-- Method `_do_extraction` touches only the html slot/flag and the cache. -/
theorem do_extraction_immediates (decodeHtml : Blob → Option String)
    (extractor : String → Blob ⊕ String → ExtractedContent)
    (p : CapturedPage) :
    ((p.do_extraction decodeHtml extractor).2.1).immediates =
      p.immediates := by
  unfold CapturedPage.do_extraction
  split
  · rfl
  · split
    · rename_i v p1 c h
      have h2 := html_content_immediates decodeHtml p
      rw [h] at h2
      exact h2
    · rename_i e p1 c h
      have h2 := html_content_immediates decodeHtml p
      rw [h] at h2
      exact h2

/-- Property `text_content` preserves the immediate fields. -/
theorem text_content_immediates (decodeHtml : Blob → Option String)
    (extractor : String → Blob ⊕ String → ExtractedContent)
    (p : CapturedPage) :
    ((p.text_content decodeHtml extractor).2.1).immediates =
      p.immediates := by
  unfold CapturedPage.text_content
  split
  · rename_i u p1 c h
    have h2 := do_extraction_immediates decodeHtml extractor p
    rw [h] at h2
    split <;> exact h2
  · rename_i e p1 c h
    have h2 := do_extraction_immediates decodeHtml extractor p
    rw [h] at h2
    exact h2

/-- Property `resources` preserves the immediate fields. -/
theorem resources_immediates (decodeHtml : Blob → Option String)
    (extractor : String → Blob ⊕ String → ExtractedContent)
    (p : CapturedPage) :
    ((p.resources decodeHtml extractor).2.1).immediates =
      p.immediates := by
  unfold CapturedPage.resources
  split
  · rename_i u p1 c h
    have h2 := do_extraction_immediates decodeHtml extractor p
    rw [h] at h2
    split <;> exact h2
  · rename_i e p1 c h
    have h2 := do_extraction_immediates decodeHtml extractor p
    rw [h] at h2
    exact h2

/-- Property `links` preserves the immediate fields. -/
theorem links_immediates (decodeHtml : Blob → Option String)
    (extractor : String → Blob ⊕ String → ExtractedContent)
    (p : CapturedPage) :
    ((p.links decodeHtml extractor).2.1).immediates = p.immediates := by
  unfold CapturedPage.links
  split
  · rename_i u p1 c h
    have h2 := do_extraction_immediates decodeHtml extractor p
    rw [h] at h2
    split <;> exact h2
  · rename_i e p1 c h
    have h2 := do_extraction_immediates decodeHtml extractor p
    rw [h] at h2
    exact h2

/-- Any single lazy-accessor call preserves the immediate fields. -/
theorem accessor_step_immediates (decodeLog : Blob → Option Json)
    (decodeHtml : Blob → Option String)
    (extractor : String → Blob ⊕ String → ExtractedContent)
    (a : Accessor) (p : CapturedPage) :
    (p.accessor_step decodeLog decodeHtml extractor a).immediates =
      p.immediates := by
  cases a
  · exact capture_log_immediates decodeLog p
  · exact html_content_immediates decodeHtml p
  · exact text_content_immediates decodeHtml extractor p
  · exact resources_immediates decodeHtml extractor p
  · exact links_immediates decodeHtml extractor p

/-- C10. After any sequence of lazy-accessor calls (`capture_log`,
`html_content`, `text_content`, `resources`, `links`), the immediate
fields `locale`, `url`, `access_time`, `result`, `detail`, `redir_url`
and `screenshot` all equal their values before the sequence (hence their
values at construction). -/
theorem accessors_preserve_immediate_fields
    (decodeLog : Blob → Option Json) (decodeHtml : Blob → Option String)
    (extractor : String → Blob ⊕ String → ExtractedContent)
    (seq : List Accessor) (p : CapturedPage) :
    (p.runAccessors decodeLog decodeHtml extractor seq).locale = p.locale ∧
    (p.runAccessors decodeLog decodeHtml extractor seq).url = p.url ∧
    (p.runAccessors decodeLog decodeHtml extractor seq).access_time =
      p.access_time ∧
    (p.runAccessors decodeLog decodeHtml extractor seq).result = p.result ∧
    (p.runAccessors decodeLog decodeHtml extractor seq).detail = p.detail ∧
    (p.runAccessors decodeLog decodeHtml extractor seq).redir_url =
      p.redir_url ∧
    (p.runAccessors decodeLog decodeHtml extractor seq).screenshot =
      p.screenshot := by
  have key : ∀ (l : List Accessor) (q : CapturedPage),
      (q.runAccessors decodeLog decodeHtml extractor l).immediates =
        q.immediates := by
    intro l
    induction l with
    | nil => intro q; rfl
    | cons a rest ih =>
      intro q
      have h1 := accessor_step_immediates decodeLog decodeHtml extractor a q
      calc ((q.accessor_step decodeLog decodeHtml extractor
              a).runAccessors decodeLog decodeHtml extractor rest).immediates
          = (q.accessor_step decodeLog decodeHtml extractor a).immediates :=
            ih _
        _ = q.immediates := h1
  have h := key seq p
  unfold CapturedPage.immediates at h
  simp only [Prod.mk.injEq] at h
  exact ⟨h.1, h.2.1, h.2.2.1, h.2.2.2.1, h.2.2.2.2.1, h.2.2.2.2.2.1,
    h.2.2.2.2.2.2⟩

/-! ## C8: cursor and connection scope released on every exit path -/

/-- Pulling one past the remaining rows exhausts the generator and
releases both resources. -/
theorem genConsume_exhausts (l : List Row) (c s : Bool) :
    genConsume (l.length + 1) ⟨l, c, s⟩ = ⟨[], false, false⟩ := by
  induction l generalizing c s with
  | nil => rfl
  | cons r rs ih =>
    show genConsume (rs.length + 1) ⟨rs, c, s⟩ = ⟨[], false, false⟩
    exact ih c s

/-- C8. For every table of rows and every way the consumer's
iteration of `get_pages` can end — natural exhaustion, early abandonment
after `k` rows, or an error raised during iteration — the named cursor is
closed and the transaction scope of the `with self.db` block is released
by the time control leaves the generator. -/
theorem get_pages_releases_resources (rows : List Row) (o : Outcome) :
    (drive rows o).cursor_open = false ∧
    (drive rows o).scope_held = false := by
  cases o with
  | exhaust =>
    unfold drive genStart
    rw [genConsume_exhausts]
    exact ⟨rfl, rfl⟩
  | abandonAfter k => exact ⟨rfl, rfl⟩
  | errorAt k => exact ⟨rfl, rfl⟩


/-! ## C7: ordered retrieval yields rows sorted by (url, locale) -/

/-- Reflexivity of `strLeChars`. -/
theorem strLeChars_refl (x : List Char) : strLeChars x x = true := by
  induction x with
  | nil => rfl
  | cons a as ih => simp [strLeChars, ih]

/-- A strict comparison is also a reflexive one. -/
theorem strLeChars_of_lt {x y : List Char} (h : strLtChars x y = true) :
    strLeChars x y = true := by
  induction x generalizing y with
  | nil => cases y <;> rfl
  | cons a as ih =>
    cases y with
    | nil => simp [strLtChars] at h
    | cons b bs =>
      simp only [strLtChars] at h
      simp only [strLeChars]
      by_cases hab : a.toNat < b.toNat
      · simp [hab]
      · by_cases hba : b.toNat < a.toNat
        · simp [hab, hba] at h
        · simp only [hab, hba, if_false] at h ⊢
          exact ih h

/-- Trichotomy for the strict comparison. -/
theorem strLtChars_trichotomy (x y : List Char) :
    strLtChars x y = true ∨ x = y ∨ strLtChars y x = true := by
  induction x generalizing y with
  | nil => cases y with
    | nil => exact Or.inr (Or.inl rfl)
    | cons b bs => exact Or.inl rfl
  | cons a as ih =>
    cases y with
    | nil => exact Or.inr (Or.inr rfl)
    | cons b bs =>
      by_cases hab : a.toNat < b.toNat
      · exact Or.inl (by simp [strLtChars, hab])
      · by_cases hba : b.toNat < a.toNat
        · exact Or.inr (Or.inr (by simp [strLtChars, hba]))
        · have hn : a.toNat = b.toNat := by omega
          have hab2 : a = b := Char.ext (UInt32.ext hn)
          subst hab2
          rcases ih bs with h | h | h
          · exact Or.inl (by simp [strLtChars, h])
          · exact Or.inr (Or.inl (by rw [h]))
          · exact Or.inr (Or.inr (by simp [strLtChars, h]))

/-- A failed reflexive comparison means the strict converse holds. -/
theorem strLtChars_of_not_le {x y : List Char}
    (h : ¬ strLeChars x y = true) : strLtChars y x = true := by
  induction x generalizing y with
  | nil => simp [strLeChars] at h
  | cons a as ih =>
    cases y with
    | nil => rfl
    | cons b bs =>
      simp only [strLeChars] at h
      simp only [strLtChars]
      by_cases hab : a.toNat < b.toNat
      · simp [hab] at h
      · by_cases hba : b.toNat < a.toNat
        · simp [hba]
        · simp only [hab, hba, if_false] at h ⊢
          exact ih h

/-- The strict comparison is transitive. -/
theorem strLtChars_trans {x y z : List Char}
    (h1 : strLtChars x y = true) (h2 : strLtChars y z = true) :
    strLtChars x z = true := by
  induction x generalizing y z with
  | nil =>
    cases y with
    | nil => simp [strLtChars] at h1
    | cons b bs => cases z with
      | nil => simp [strLtChars] at h2
      | cons c cs => rfl
  | cons a as ih =>
    cases y with
    | nil => simp [strLtChars] at h1
    | cons b bs =>
      cases z with
      | nil => simp [strLtChars] at h2
      | cons c cs =>
        simp only [strLtChars] at h1 h2 ⊢
        by_cases hab : a.toNat < b.toNat
        · by_cases hbc : b.toNat < c.toNat
          · have : a.toNat < c.toNat := hab.trans hbc
            simp [this]
          · by_cases hcb : c.toNat < b.toNat
            · simp [hbc, hcb] at h2
            · have : b.toNat = c.toNat := by omega
              have : a.toNat < c.toNat := by omega
              simp [this]
        · by_cases hba : b.toNat < a.toNat
          · simp [hab, hba] at h1
          · have hab2 : a.toNat = b.toNat := by omega
            by_cases hbc : b.toNat < c.toNat
            · have : a.toNat < c.toNat := by omega
              simp [this]
            · by_cases hcb : c.toNat < b.toNat
              · simp [hbc, hcb] at h2
              · have hac : ¬ a.toNat < c.toNat := by omega
                have hca : ¬ c.toNat < a.toNat := by omega
                simp only [hab, hba, if_false] at h1
                simp only [hbc, hcb, if_false] at h2
                simp only [hac, hca, if_false]
                exact ih h1 h2

/-- The reflexive comparison is transitive. -/
theorem strLeChars_trans {x y z : List Char}
    (h1 : strLeChars x y = true) (h2 : strLeChars y z = true) :
    strLeChars x z = true := by
  induction x generalizing y z with
  | nil => rfl
  | cons a as ih =>
    cases y with
    | nil => simp [strLeChars] at h1
    | cons b bs =>
      cases z with
      | nil => simp [strLeChars] at h2
      | cons c cs =>
        simp only [strLeChars] at h1 h2 ⊢
        by_cases hab : a.toNat < b.toNat
        · by_cases hbc : b.toNat < c.toNat
          · have : a.toNat < c.toNat := hab.trans hbc
            simp [this]
          · by_cases hcb : c.toNat < b.toNat
            · simp [hbc, hcb] at h2
            · have : a.toNat < c.toNat := by omega
              simp [this]
        · by_cases hba : b.toNat < a.toNat
          · simp [hab, hba] at h1
          · by_cases hbc : b.toNat < c.toNat
            · have : a.toNat < c.toNat := by omega
              simp [this]
            · by_cases hcb : c.toNat < b.toNat
              · simp [hbc, hcb] at h2
              · have hac : ¬ a.toNat < c.toNat := by omega
                have hca : ¬ c.toNat < a.toNat := by omega
                simp only [hab, hba, if_false] at h1
                simp only [hbc, hcb, if_false] at h2
                simp only [hac, hca, if_false]
                exact ih h1 h2

/-- A reflexive comparison between distinct sequences is strict. -/
theorem strLtChars_of_le_of_ne {x y : List Char}
    (h : strLeChars x y = true) (hne : x ≠ y) :
    strLtChars x y = true := by
  induction x generalizing y with
  | nil =>
    cases y with
    | nil => exact absurd rfl hne
    | cons b bs => rfl
  | cons a as ih =>
    cases y with
    | nil => simp [strLeChars] at h
    | cons b bs =>
      simp only [strLeChars] at h
      simp only [strLtChars]
      by_cases hab : a.toNat < b.toNat
      · simp [hab]
      · by_cases hba : b.toNat < a.toNat
        · simp [hab, hba] at h
        · have hn : a.toNat = b.toNat := by omega
          have hab2 : a = b := Char.ext (UInt32.ext hn)
          subst hab2
          simp only [hab, hba, if_false] at h ⊢
          exact ih h (fun he => hne (by rw [he]))

/-- The strict comparison is asymmetric. -/
theorem strLtChars_asymm {x y : List Char}
    (h1 : strLtChars x y = true) (h2 : strLtChars y x = true) : False := by
  induction x generalizing y with
  | nil => cases y with
    | nil => simp [strLtChars] at h1
    | cons b bs => simp [strLtChars] at h2
  | cons a as ih =>
    cases y with
    | nil => simp [strLtChars] at h1
    | cons b bs =>
      simp only [strLtChars] at h1 h2
      by_cases hab : a.toNat < b.toNat
      · have hba : ¬ b.toNat < a.toNat := by omega
        simp [hab, hba] at h2
      · by_cases hba : b.toNat < a.toNat
        · simp [hab, hba] at h1
        · simp only [hab, hba, if_false] at h1 h2
          exact ih h1 h2

/-- Totality of `rowLe`. -/
theorem rowLe_total (a b : Row) : rowLe a b ∨ rowLe b a := by
  unfold rowLe
  rcases strLtChars_trichotomy a.url.data b.url.data with h | h | h
  · exact Or.inl (Or.inl h)
  · have he : a.url = b.url := String.ext h
    rcases strLtChars_trichotomy a.locale.data b.locale.data with h2 | h2 | h2
    · exact Or.inl (Or.inr ⟨he, strLeChars_of_lt h2⟩)
    · exact Or.inl (Or.inr ⟨he, by rw [h2]; exact strLeChars_refl _⟩)
    · exact Or.inr (Or.inr ⟨he.symm, strLeChars_of_lt h2⟩)
  · exact Or.inr (Or.inl h)

/-- Transitivity of `rowLe`. -/
theorem rowLe_trans {a b c : Row} (h1 : rowLe a b) (h2 : rowLe b c) :
    rowLe a c := by
  unfold rowLe at h1 h2 ⊢
  rcases h1 with h1 | ⟨h1e, h1l⟩
  · rcases h2 with h2 | ⟨h2e, _⟩
    · exact Or.inl (strLtChars_trans h1 h2)
    · exact Or.inl (h2e ▸ h1)
  · rcases h2 with h2 | ⟨h2e, h2l⟩
    · exact Or.inl (h1e ▸ h2)
    · exact Or.inr ⟨h1e.trans h2e, strLeChars_trans h1l h2l⟩

/-- Membership after insertion: the inserted row or an original one. -/
theorem mem_insertRow {z x : Row} {l : List Row}
    (h : z ∈ insertRow x l) : z = x ∨ z ∈ l := by
  induction l with
  | nil =>
    cases h with
    | head => exact Or.inl rfl
    | tail _ h2 => cases h2
  | cons y ys ih =>
    unfold insertRow at h
    split at h
    · cases h with
      | head => exact Or.inl rfl
      | tail _ h2 => exact Or.inr h2
    · cases h with
      | head => exact Or.inr (List.mem_cons_self _ _)
      | tail _ h2 =>
        cases ih h2 with
        | inl h3 => exact Or.inl h3
        | inr h3 => exact Or.inr (List.mem_cons_of_mem _ h3)

/-- Insertion preserves sortedness. -/
theorem insertRow_sorted (x : Row) (l : List Row)
    (h : List.Pairwise rowLe l) :
    List.Pairwise rowLe (insertRow x l) := by
  induction l with
  | nil => exact List.pairwise_singleton _ _
  | cons y ys ih =>
    rcases List.pairwise_cons.mp h with ⟨hy, hys⟩
    unfold insertRow
    split
    · rename_i hxy
      exact List.pairwise_cons.mpr
        ⟨fun z hz => by
          cases hz with
          | head => exact hxy
          | tail _ hz2 => exact rowLe_trans hxy (hy z hz2),
         h⟩
    · rename_i hxy
      have hyx : rowLe y x := (rowLe_total x y).resolve_left hxy
      refine List.pairwise_cons.mpr ⟨fun z hz => ?_, ih hys⟩
      rcases mem_insertRow hz with h3 | h3
      · exact h3 ▸ hyx
      · exact hy z h3

/-- Sorting with `sortRows` yields a list pairwise ordered by `(url, locale)`. -/
theorem sortRows_sorted (l : List Row) :
    List.Pairwise rowLe (sortRows l) := by
  induction l with
  | nil => exact List.Pairwise.nil
  | cons x xs ih => exact insertRow_sorted x (sortRows xs) ih

/-- C7. With `ordered = true` the produced sequence of rows is
totally ordered by `(url, locale)` ascending, for every table, WHERE
predicate and LIMIT; in particular rows with `(url, locale)` pairs
`("b","1")`, `("a","2")`, `("a","1")` are yielded as
`("a","1"), ("a","2"), ("b","1")`. -/
theorem get_pages_ordered_sorted :
    (∀ (table : List Row) (wpred : Row → Bool) (hasWhere : Bool)
       (limit : Option Nat),
       List.Pairwise rowLe (runQuery table wpred hasWhere true limit)) ∧
    (PageDB.get_pages
        [⟨"1", "b", ⟨2014, 1, 1, 0, 0, 0⟩, "ok", none, "b", [], [], none⟩,
         ⟨"2", "a", ⟨2014, 1, 1, 0, 0, 0⟩, "ok", none, "a", [], [], none⟩,
         ⟨"1", "a", ⟨2014, 1, 1, 0, 0, 0⟩, "ok", none, "a", [], [], none⟩]
        (fun _ => true) false true none).map
      (fun cp => (cp.url, cp.locale)) =
      [("a", "1"), ("a", "2"), ("b", "1")] := by
  constructor
  · intro table wpred hasWhere limit
    unfold runQuery
    simp only
    match limit with
    | some n =>
      exact List.Pairwise.sublist (List.take_sublist n _)
        (sortRows_sorted _)
    | none => exact sortRows_sorted _
  · rfl

/-! ## C2: the three derived views share one memoized extraction -/

/-- Once the triple is cached, every view returns its component of the
cache, performs no work, and leaves the record unchanged. -/
theorem view_step_cached (decodeHtml : Blob → Option String)
    (extractor : String → Blob ⊕ String → ExtractedContent) (v : View)
    (p : CapturedPage) (e : ExtractedContent) (h : p._extracted = some e) :
    p.view_step decodeHtml extractor v =
      (.ok (viewAnswer e v), p, ⟨0, 0, 0⟩) := by
  cases v <;>
    simp only [CapturedPage.view_step, CapturedPage.text_content,
      CapturedPage.resources, CapturedPage.links,
      CapturedPage.do_extraction, h, viewAnswer]

/-- The first view call on a fresh record with decodable HTML
decompresses once, invokes the extractor once with
`(redir_url, html_content)`, and caches the triple. -/
theorem view_step_fresh (decodeHtml : Blob → Option String)
    (extractor : String → Blob ⊕ String → ExtractedContent) (v : View)
    (p : CapturedPage) (b : Blob) (s : String)
    (hne : p._extracted = none) (hf : p._html_content_unpacked = false)
    (hs : p._html_content = Sum.inl b) (hd : decodeHtml b = some s) :
    p.view_step decodeHtml extractor v =
      (.ok (viewAnswer (extractor p.redir_url (Sum.inr s)) v),
       { p with _html_content := Sum.inr s,
                _html_content_unpacked := true,
                _extracted := some (extractor p.redir_url (Sum.inr s)) },
       ⟨0, 1, 1⟩) := by
  have hh : p.html_content decodeHtml =
      (.ok (Sum.inr s),
       { p with _html_content := Sum.inr s,
                _html_content_unpacked := true }, 1) := by
    simp only [CapturedPage.html_content, hf, hs, hd]
    simp
  cases v <;>
    simp only [CapturedPage.view_step, CapturedPage.text_content,
      CapturedPage.resources, CapturedPage.links,
      CapturedPage.do_extraction, hne, hh, viewAnswer]

/-- A whole sequence of view calls on a record with a cached triple does
no work and returns cache components throughout. -/
theorem runViews_cached (decodeHtml : Blob → Option String)
    (extractor : String → Blob ⊕ String → ExtractedContent)
    (vs : List View) (p : CapturedPage) (e : ExtractedContent)
    (h : p._extracted = some e) :
    p.runViews decodeHtml extractor vs =
      (vs.map (fun v => .ok (viewAnswer e v)), p, ⟨0, 0, 0⟩) := by
  induction vs with
  | nil => rfl
  | cons v vs ih =>
    simp only [CapturedPage.runViews,
      view_step_cached decodeHtml extractor v p e h, ih, List.map]
    rfl

/-- C2. Starting from a fresh record (no cached triple, HTML not yet
unpacked and decodable), any nonempty sequence of calls to the three
derived views invokes the extractor exactly once in total, with arguments
`(redir_url, html_content)`; the triple is cached, and every call in the
sequence returns the corresponding component of that one triple. -/
theorem derived_views_extract_once (decodeHtml : Blob → Option String)
    (extractor : String → Blob ⊕ String → ExtractedContent)
    (p : CapturedPage) (b : Blob) (s : String)
    (hne : p._extracted = none) (hf : p._html_content_unpacked = false)
    (hs : p._html_content = Sum.inl b) (hd : decodeHtml b = some s)
    (v : View) (vs : List View) :
    (p.runViews decodeHtml extractor (v :: vs)).2.2.extract = 1 ∧
    (p.runViews decodeHtml extractor (v :: vs)).2.1._extracted =
      some (extractor p.redir_url (Sum.inr s)) ∧
    (p.runViews decodeHtml extractor (v :: vs)).1 =
      (v :: vs).map
        (fun w => .ok (viewAnswer (extractor p.redir_url (Sum.inr s)) w)) := by
  have h1 := view_step_fresh decodeHtml extractor v p b s hne hf hs hd
  have h2 := runViews_cached decodeHtml extractor vs
    { p with _html_content := Sum.inr s,
             _html_content_unpacked := true,
             _extracted := some (extractor p.redir_url (Sum.inr s)) }
    (extractor p.redir_url (Sum.inr s)) rfl
  refine ⟨?_, ?_, ?_⟩ <;>
    (simp only [CapturedPage.runViews, h1, h2, List.map]; try rfl)

/-- Concrete instantiation of `derived_views_extract_once`: calling
`text_content` then `links` then `resources` extracts once. -/
theorem derived_views_extract_once_holds :
    let dh : Blob → Option String := fun _ => some "<p>"
    let ex : String → Blob ⊕ String → ExtractedContent :=
      fun _ _ => ⟨"txt", ["r1"], ["l1"]⟩
    let p := CapturedPage.init "en" "http://x/" ⟨2014, 3, 5, 12, 30, 9⟩
      "ok" (some "d") "http://y/" [0] [1] none
    (p.runViews dh ex [View.text, View.links, View.rsrcs]).2.2.extract = 1 ∧
    (p.runViews dh ex [View.text, View.links, View.rsrcs]).2.1._extracted =
      some (ex p.redir_url (Sum.inr "<p>")) ∧
    (p.runViews dh ex [View.text, View.links, View.rsrcs]).1 =
      [View.text, View.links, View.rsrcs].map
        (fun w => .ok (viewAnswer (ex p.redir_url (Sum.inr "<p>")) w)) :=
  derived_views_extract_once _ _ _ [1] "<p>" rfl rfl rfl rfl
    View.text [View.links, View.rsrcs]

/-! ## Dict-shape lemmas for the `dump` serializer -/

/-- Updating with `setk` never changes the key set. -/
theorem setk_keys (l : List (String × DVal)) (k : String) (v : DVal) :
    (setk l k v).map Prod.fst = l.map Prod.fst := by
  unfold setk
  rw [List.map_map]
  apply List.map_congr_left
  intro kv _
  by_cases hk : kv.1 = k
  · simp [hk]
  · simp [hk]

/-- Updating with `setk` at one key leaves the binding of every other key alone. -/
theorem lookupVal_setk_ne (l : List (String × DVal)) (k : String)
    (v : DVal) (k2 : String) (h : k2 ≠ k) :
    lookupVal (setk l k v) k2 = lookupVal l k2 := by
  induction l with
  | nil => rfl
  | cons kv rest ih =>
    show lookupVal ((if kv.1 = k then (k, v) else kv) :: setk rest k v) k2
      = lookupVal (kv :: rest) k2
    by_cases hk : kv.1 = k
    · rw [if_pos hk]
      unfold lookupVal
      rw [List.find?_cons_of_neg _ (by
            simp only [beq_iff_eq]
            exact fun he => h he.symm),
          List.find?_cons_of_neg _ (by
            simp only [beq_iff_eq, hk]
            exact fun he => h he.symm)]
      exact ih
    · rw [if_neg hk]
      by_cases hk2 : kv.1 = k2
      · unfold lookupVal
        rw [List.find?_cons_of_pos _ (by simp only [beq_iff_eq]; exact hk2),
            List.find?_cons_of_pos _ (by simp only [beq_iff_eq]; exact hk2)]
      · unfold lookupVal
        rw [List.find?_cons_of_neg _ (by simp only [beq_iff_eq]; exact hk2),
            List.find?_cons_of_neg _ (by simp only [beq_iff_eq]; exact hk2)]
        exact ih

/-- An `.ok` outcome of the capture-log gate preserves all keys and all
bindings other than `"6_log"`. -/
theorem gatedLog_ok (decodeLog : Blob → Option Json) (flag : Bool)
    (val : List (String × DVal)) (p : CapturedPage)
    (val2 : List (String × DVal)) (p2 : CapturedPage) (c : Counts)
    (h : gatedLog decodeLog flag val p = (.ok val2, p2, c)) :
    val2.map Prod.fst = val.map Prod.fst ∧
    ∀ k2, k2 ≠ "6_log" → lookupVal val2 k2 = lookupVal val k2 := by
  unfold gatedLog at h
  split at h
  · split at h
    · simp only [Prod.mk.injEq, Except.ok.injEq] at h
      rw [← h.1]
      exact ⟨setk_keys _ _ _, fun k2 hk2 => lookupVal_setk_ne _ _ _ _ hk2⟩
    · simp at h
  · simp only [Prod.mk.injEq, Except.ok.injEq] at h
    rw [← h.1]
    exact ⟨rfl, fun _ _ => rfl⟩

/-- An `.ok` outcome of the html gate preserves all keys and all
bindings other than `"7_html"`. -/
theorem gatedHtml_ok (decodeHtml : Blob → Option String) (flag : Bool)
    (val : List (String × DVal)) (p : CapturedPage)
    (val2 : List (String × DVal)) (p2 : CapturedPage) (c : Counts)
    (h : gatedHtml decodeHtml flag val p = (.ok val2, p2, c)) :
    val2.map Prod.fst = val.map Prod.fst ∧
    ∀ k2, k2 ≠ "7_html" → lookupVal val2 k2 = lookupVal val k2 := by
  unfold gatedHtml at h
  split at h
  · split at h
    · simp only [Prod.mk.injEq, Except.ok.injEq] at h
      rw [← h.1]
      exact ⟨setk_keys _ _ _, fun k2 hk2 => lookupVal_setk_ne _ _ _ _ hk2⟩
    · simp at h
  · simp only [Prod.mk.injEq, Except.ok.injEq] at h
    rw [← h.1]
    exact ⟨rfl, fun _ _ => rfl⟩

/-- An `.ok` outcome of the text gate preserves all keys and all
bindings other than `"7_text"`. -/
theorem gatedText_ok (decodeHtml : Blob → Option String)
    (extractor : String → Blob ⊕ String → ExtractedContent) (flag : Bool)
    (val : List (String × DVal)) (p : CapturedPage)
    (val2 : List (String × DVal)) (p2 : CapturedPage) (c : Counts)
    (h : gatedText decodeHtml extractor flag val p = (.ok val2, p2, c)) :
    val2.map Prod.fst = val.map Prod.fst ∧
    ∀ k2, k2 ≠ "7_text" → lookupVal val2 k2 = lookupVal val k2 := by
  unfold gatedText at h
  split at h
  · split at h
    · simp only [Prod.mk.injEq, Except.ok.injEq] at h
      rw [← h.1]
      exact ⟨setk_keys _ _ _, fun k2 hk2 => lookupVal_setk_ne _ _ _ _ hk2⟩
    · simp at h
  · simp only [Prod.mk.injEq, Except.ok.injEq] at h
    rw [← h.1]
    exact ⟨rfl, fun _ _ => rfl⟩

/-- An `.ok` outcome of the resources gate preserves all keys and all
bindings other than `"7_rsrcs"`. -/
theorem gatedRsrcs_ok (decodeHtml : Blob → Option String)
    (extractor : String → Blob ⊕ String → ExtractedContent) (flag : Bool)
    (val : List (String × DVal)) (p : CapturedPage)
    (val2 : List (String × DVal)) (p2 : CapturedPage) (c : Counts)
    (h : gatedRsrcs decodeHtml extractor flag val p = (.ok val2, p2, c)) :
    val2.map Prod.fst = val.map Prod.fst ∧
    ∀ k2, k2 ≠ "7_rsrcs" → lookupVal val2 k2 = lookupVal val k2 := by
  unfold gatedRsrcs at h
  split at h
  · split at h
    · simp only [Prod.mk.injEq, Except.ok.injEq] at h
      rw [← h.1]
      exact ⟨setk_keys _ _ _, fun k2 hk2 => lookupVal_setk_ne _ _ _ _ hk2⟩
    · simp at h
  · simp only [Prod.mk.injEq, Except.ok.injEq] at h
    rw [← h.1]
    exact ⟨rfl, fun _ _ => rfl⟩

/-- An `.ok` outcome of the links gate preserves all keys and all
bindings other than `"7_links"`. -/
theorem gatedLinks_ok (decodeHtml : Blob → Option String)
    (extractor : String → Blob ⊕ String → ExtractedContent) (flag : Bool)
    (val : List (String × DVal)) (p : CapturedPage)
    (val2 : List (String × DVal)) (p2 : CapturedPage) (c : Counts)
    (h : gatedLinks decodeHtml extractor flag val p = (.ok val2, p2, c)) :
    val2.map Prod.fst = val.map Prod.fst ∧
    ∀ k2, k2 ≠ "7_links" → lookupVal val2 k2 = lookupVal val k2 := by
  unfold gatedLinks at h
  split at h
  · split at h
    · simp only [Prod.mk.injEq, Except.ok.injEq] at h
      rw [← h.1]
      exact ⟨setk_keys _ _ _, fun k2 hk2 => lookupVal_setk_ne _ _ _ _ hk2⟩
    · simp at h
  · simp only [Prod.mk.injEq, Except.ok.injEq] at h
    rw [← h.1]
    exact ⟨rfl, fun _ _ => rfl⟩

/-- The key list of the dict after the redirect update. -/
theorem dumpAllFalseVal_keys (p : CapturedPage) :
    (dumpAllFalseVal p).map Prod.fst = dumpKeys := by
  unfold dumpAllFalseVal
  split
  · rfl
  · rfl

/-- The `"5_redir"` binding after the redirect update. -/
theorem dumpAllFalseVal_redir (p : CapturedPage) :
    lookupVal (dumpAllFalseVal p) "5_redir" =
      (if p.redir_url = p.url then some (.jv .null)
       else some (.jv (.str p.redir_url))) := by
  unfold dumpAllFalseVal
  split
  · rfl
  · rfl

/-- Every successful `dump_val` has exactly the eleven fixed keys in
insertion order, and its `"5_redir"` binding is the one produced by the
redirect update. -/
theorem dump_val_ok_fields (decodeLog : Blob → Option Json)
    (decodeHtml : Blob → Option String)
    (extractor : String → Blob ⊕ String → ExtractedContent) (flags : Flags)
    (p : CapturedPage) (val : List (String × DVal)) (p1 : CapturedPage)
    (c : Counts)
    (h : p.dump_val decodeLog decodeHtml extractor flags =
      (.ok val, p1, c)) :
    val.map Prod.fst = dumpKeys ∧
    lookupVal val "5_redir" = lookupVal (dumpAllFalseVal p) "5_redir" := by
  unfold CapturedPage.dump_val at h
  simp only [] at h
  rcases h1 : gatedLog decodeLog flags.capture_log (dumpAllFalseVal p) p
    with ⟨r1, q1, c1⟩
  rw [show (if p.redir_url = p.url then p.dump_init_val
      else setk p.dump_init_val "5_redir" (.jv (.str p.redir_url))) =
      dumpAllFalseVal p from rfl, h1] at h
  cases r1 with
  | error e => dsimp only at h; simp at h
  | ok v2 =>
    dsimp only at h
    rcases h2 : gatedHtml decodeHtml flags.html_content v2 q1
      with ⟨r2, q2, c2⟩
    rw [h2] at h
    cases r2 with
    | error e => dsimp only at h; simp at h
    | ok v3 =>
      dsimp only at h
      rcases h3 : gatedText decodeHtml extractor flags.text_content v3 q2
        with ⟨r3, q3, c3⟩
      rw [h3] at h
      cases r3 with
      | error e => dsimp only at h; simp at h
      | ok v4 =>
        dsimp only at h
        rcases h4 : gatedRsrcs decodeHtml extractor flags.resources v4 q3
          with ⟨r4, q4, c4⟩
        rw [h4] at h
        cases r4 with
        | error e => dsimp only at h; simp at h
        | ok v5 =>
          dsimp only at h
          rcases h5 : gatedLinks decodeHtml extractor flags.links v5 q4
            with ⟨r5, q5, c5⟩
          rw [h5] at h
          cases r5 with
          | error e => dsimp only at h; simp at h
          | ok v6 =>
            dsimp only at h
            simp only [Prod.mk.injEq, Except.ok.injEq] at h
            obtain ⟨hval, _, _⟩ := h
            subst hval
            obtain ⟨k1, l1⟩ := gatedLog_ok _ _ _ _ _ _ _ h1
            obtain ⟨k2, l2⟩ := gatedHtml_ok _ _ _ _ _ _ _ h2
            obtain ⟨k3, l3⟩ := gatedText_ok _ _ _ _ _ _ _ _ h3
            obtain ⟨k4, l4⟩ := gatedRsrcs_ok _ _ _ _ _ _ _ _ h4
            obtain ⟨k5, l5⟩ := gatedLinks_ok _ _ _ _ _ _ _ _ h5
            constructor
            · rw [k5, k4, k3, k2, k1, dumpAllFalseVal_keys]
            · rw [l5 _ (by decide), l4 _ (by decide), l3 _ (by decide),
                l2 _ (by decide), l1 _ (by decide)]

/-! ## C3: number of fields of the serialized output object -/

/-- C3 (counterexample). The serialized output object does not have
ten fields: for a concrete record (all inclusion flags false) the `val`
dict passed to `json.dumps` has eleven entries. -/
theorem dump_ten_fields_counterexample :
    Except.map List.length
      ((CapturedPage.init "en" "http://x/" ⟨2014, 3, 5, 12, 30, 9⟩ "ok"
          (some "d") "http://y/" [0] [1] none).dump_val
        (fun _ => none) (fun _ => none) (fun _ _ => ⟨"", [], []⟩)
        allFalse).1 = .ok 11 ∧
    Except.map List.length
      ((CapturedPage.init "en" "http://x/" ⟨2014, 3, 5, 12, 30, 9⟩ "ok"
          (some "d") "http://y/" [0] [1] none).dump_val
        (fun _ => none) (fun _ => none) (fun _ _ => ⟨"", [], []⟩)
        allFalse).1 ≠ .ok 10 := by
  constructor
  · rfl
  · intro h
    rw [show Except.map List.length
        ((CapturedPage.init "en" "http://x/" ⟨2014, 3, 5, 12, 30, 9⟩ "ok"
            (some "d") "http://y/" [0] [1] none).dump_val
          (fun _ => none) (fun _ => none) (fun _ _ => ⟨"", [], []⟩)
          allFalse).1 = (.ok 11 : Except Unit Nat) from rfl] at h
    simp at h

/-- C3 (amended). For every record, every combination of inclusion
flags, and every decoder/extractor, a successful serialization produces a
`val` object with exactly the eleven fixed keys, each present (with a
value or JSON null), in the fixed insertion order `dumpKeys`. -/
theorem dump_output_has_eleven_fields (decodeLog : Blob → Option Json)
    (decodeHtml : Blob → Option String)
    (extractor : String → Blob ⊕ String → ExtractedContent) (flags : Flags)
    (p : CapturedPage) (val : List (String × DVal)) (p1 : CapturedPage)
    (c : Counts)
    (h : p.dump_val decodeLog decodeHtml extractor flags =
      (.ok val, p1, c)) :
    val.map Prod.fst = dumpKeys ∧ val.length = 11 := by
  obtain ⟨hk, _⟩ := dump_val_ok_fields decodeLog decodeHtml extractor
    flags p val p1 c h
  refine ⟨hk, ?_⟩
  have : (val.map Prod.fst).length = dumpKeys.length := by rw [hk]
  simpa using this

/-- Concrete instantiation of `dump_output_has_eleven_fields`. -/
theorem dump_output_has_eleven_fields_holds :
    ((dumpAllFalseVal (CapturedPage.init "en" "http://x/"
        ⟨2014, 3, 5, 12, 30, 9⟩ "ok" (some "d") "http://y/" [0] [1]
        none)).map Prod.fst = dumpKeys) ∧
    (dumpAllFalseVal (CapturedPage.init "en" "http://x/"
        ⟨2014, 3, 5, 12, 30, 9⟩ "ok" (some "d") "http://y/" [0] [1]
        none)).length = 11 :=
  dump_output_has_eleven_fields (fun _ => none) (fun _ => none)
    (fun _ _ => ⟨"", [], []⟩) allFalse _ _ _ ⟨0, 0, 0⟩ rfl

/-! ## C4: serialization with all flags off -/

/-- C4 (counterexample). With all five inclusion flags false, the
null-valued fields of the output are not four: on a concrete record with
a redirect and a detail string the output has exactly five null fields
(the five flag-gated ones). -/
theorem dump_four_nulls_counterexample :
    Except.map countNulls
      ((CapturedPage.init "en" "http://x/" ⟨2014, 3, 5, 12, 30, 9⟩ "ok"
          (some "d") "http://y/" [0] [1] none).dump_val
        (fun _ => none) (fun _ => none) (fun _ _ => ⟨"", [], []⟩)
        allFalse).1 = .ok 5 ∧
    Except.map countNulls
      ((CapturedPage.init "en" "http://x/" ⟨2014, 3, 5, 12, 30, 9⟩ "ok"
          (some "d") "http://y/" [0] [1] none).dump_val
        (fun _ => none) (fun _ => none) (fun _ _ => ⟨"", [], []⟩)
        allFalse).1 ≠ .ok 4 := by
  constructor
  · rfl
  · intro h
    rw [show Except.map countNulls
        ((CapturedPage.init "en" "http://x/" ⟨2014, 3, 5, 12, 30, 9⟩ "ok"
            (some "d") "http://y/" [0] [1] none).dump_val
          (fun _ => none) (fun _ => none) (fun _ _ => ⟨"", [], []⟩)
          allFalse).1 = (.ok 5 : Except Unit Nat) from rfl] at h
    simp at h

/-- C4 (amended). Serializing with all five inclusion flags false
performs no decompression and no extraction (all work counts are zero),
leaves the record untouched, sets the five flag-gated derived fields
(`6_log`, `7_html`, `7_text`, `7_rsrcs`, `7_links`) to null, and
populates the six immediate fields from the row (`5_redir` per the
redirect policy). -/
theorem dump_all_flags_false_spec (decodeLog : Blob → Option Json)
    (decodeHtml : Blob → Option String)
    (extractor : String → Blob ⊕ String → ExtractedContent)
    (p : CapturedPage) :
    p.dump_val decodeLog decodeHtml extractor allFalse =
      (.ok (dumpAllFalseVal p), p, ⟨0, 0, 0⟩) ∧
    lookupVal (dumpAllFalseVal p) "6_log" = some (.jv .null) ∧
    lookupVal (dumpAllFalseVal p) "7_html" = some (.jv .null) ∧
    lookupVal (dumpAllFalseVal p) "7_text" = some (.jv .null) ∧
    lookupVal (dumpAllFalseVal p) "7_rsrcs" = some (.jv .null) ∧
    lookupVal (dumpAllFalseVal p) "7_links" = some (.jv .null) ∧
    lookupVal (dumpAllFalseVal p) "0_url" = some (.jv (.str p.url)) ∧
    lookupVal (dumpAllFalseVal p) "1_locale" = some (.jv (.str p.locale)) ∧
    lookupVal (dumpAllFalseVal p) "2_access_time" =
      some (.jv (.str (p.access_time.isoformat " "))) ∧
    lookupVal (dumpAllFalseVal p) "3_result" = some (.jv (.str p.result)) ∧
    lookupVal (dumpAllFalseVal p) "4_detail" =
      some (.jv (optStr p.detail)) ∧
    (p.redir_url = p.url →
      lookupVal (dumpAllFalseVal p) "5_redir" = some (.jv .null)) ∧
    (p.redir_url ≠ p.url →
      lookupVal (dumpAllFalseVal p) "5_redir" =
        some (.jv (.str p.redir_url))) := by
  refine ⟨rfl, ?_⟩
  by_cases hru : p.redir_url = p.url
  · unfold dumpAllFalseVal
    rw [if_pos hru]
    exact ⟨rfl, rfl, rfl, rfl, rfl, rfl, rfl, rfl, rfl, rfl,
      fun _ => rfl, fun h2 => absurd hru h2⟩
  · unfold dumpAllFalseVal
    rw [if_neg hru]
    exact ⟨rfl, rfl, rfl, rfl, rfl, rfl, rfl, rfl, rfl, rfl,
      fun h2 => absurd h2 hru, fun _ => rfl⟩

/-- Concrete instantiation of `dump_all_flags_false_spec` (the
conditional conjuncts discharged at a record with a redirect). -/
theorem dump_all_flags_false_spec_holds :
    let p := CapturedPage.init "en" "http://x/" ⟨2014, 3, 5, 12, 30, 9⟩
      "ok" (some "d") "http://y/" [0] [1] none
    p.dump_val (fun _ => none) (fun _ => none) (fun _ _ => ⟨"", [], []⟩)
        allFalse = (.ok (dumpAllFalseVal p), p, ⟨0, 0, 0⟩) ∧
    lookupVal (dumpAllFalseVal p) "6_log" = some (.jv .null) ∧
    lookupVal (dumpAllFalseVal p) "5_redir" =
      some (.jv (.str "http://y/")) :=
    ⟨(dump_all_flags_false_spec (fun _ => none) (fun _ => none)
        (fun _ _ => ⟨"", [], []⟩)
        (CapturedPage.init "en" "http://x/" ⟨2014, 3, 5, 12, 30, 9⟩
          "ok" (some "d") "http://y/" [0] [1] none)).1,
     (dump_all_flags_false_spec (fun _ => none) (fun _ => none)
        (fun _ _ => ⟨"", [], []⟩)
        (CapturedPage.init "en" "http://x/" ⟨2014, 3, 5, 12, 30, 9⟩
          "ok" (some "d") "http://y/" [0] [1] none)).2.1,
     (dump_all_flags_false_spec (fun _ => none) (fun _ => none)
        (fun _ _ => ⟨"", [], []⟩)
        (CapturedPage.init "en" "http://x/" ⟨2014, 3, 5, 12, 30, 9⟩
          "ok" (some "d") "http://y/" [0] [1]
          none)).2.2.2.2.2.2.2.2.2.2.2.2 (by decide)⟩

/-! ## C5: the redirect field policy -/

/-- C5. In every successful serialization the `5_redir` field is
JSON null exactly when `redir_url` equals `url`, and otherwise equals
`redir_url`. -/
theorem dump_redirect_policy (decodeLog : Blob → Option Json)
    (decodeHtml : Blob → Option String)
    (extractor : String → Blob ⊕ String → ExtractedContent) (flags : Flags)
    (p : CapturedPage) (val : List (String × DVal)) (p1 : CapturedPage)
    (c : Counts)
    (h : p.dump_val decodeLog decodeHtml extractor flags =
      (.ok val, p1, c)) :
    (lookupVal val "5_redir" = some (.jv .null) ↔ p.redir_url = p.url) ∧
    (p.redir_url ≠ p.url →
      lookupVal val "5_redir" = some (.jv (.str p.redir_url))) := by
  obtain ⟨_, hr⟩ := dump_val_ok_fields decodeLog decodeHtml extractor
    flags p val p1 c h
  rw [hr, dumpAllFalseVal_redir]
  by_cases hru : p.redir_url = p.url
  · rw [if_pos hru]
    exact ⟨⟨fun _ => hru, fun _ => rfl⟩, fun h2 => absurd hru h2⟩
  · rw [if_neg hru]
    refine ⟨⟨fun h2 => ?_, fun h2 => absurd h2 hru⟩, fun _ => rfl⟩
    simp at h2

/-- Concrete instantiation of `dump_redirect_policy`: a record whose
`redir_url` differs from its `url` serializes it into `5_redir`. -/
theorem dump_redirect_policy_holds :
    let p := CapturedPage.init "en" "http://x/" ⟨2014, 3, 5, 12, 30, 9⟩
      "ok" (some "d") "http://y/" [0] [1] none
    lookupVal (dumpAllFalseVal p) "5_redir" =
      some (.jv (.str "http://y/")) :=
  (dump_redirect_policy (fun _ => none) (fun _ => none)
      (fun _ _ => ⟨"", [], []⟩) allFalse _ _ _ ⟨0, 0, 0⟩ rfl).2 (by decide)

/-! ## C6: deterministic, insertion-order-independent serialization -/

/-- Key order used by `sort_keys=True`, on rendered members. -/
def pairKeyLe (a b : String × String) : Prop :=
  strLeChars a.1.data b.1.data = true

/-- Strict key order on rendered members. -/
def pairKeyLt (a b : String × String) : Prop :=
  strLtChars a.1.data b.1.data = true

/-- Membership after key insertion. -/
theorem mem_insertPair {z x : String × String} {l : List (String × String)}
    (h : z ∈ insertPair x l) : z = x ∨ z ∈ l := by
  induction l with
  | nil =>
    cases h with
    | head => exact Or.inl rfl
    | tail _ h2 => cases h2
  | cons y ys ih =>
    unfold insertPair at h
    split at h
    · cases h with
      | head => exact Or.inl rfl
      | tail _ h2 => exact Or.inr h2
    · cases h with
      | head => exact Or.inr (List.mem_cons_self _ _)
      | tail _ h2 =>
        cases ih h2 with
        | inl h3 => exact Or.inl h3
        | inr h3 => exact Or.inr (List.mem_cons_of_mem _ h3)

/-- Key insertion preserves sortedness. -/
theorem insertPair_sorted (x : String × String)
    (l : List (String × String)) (h : List.Pairwise pairKeyLe l) :
    List.Pairwise pairKeyLe (insertPair x l) := by
  induction l with
  | nil => exact List.pairwise_singleton _ _
  | cons y ys ih =>
    rcases List.pairwise_cons.mp h with ⟨hy, hys⟩
    unfold insertPair
    split
    · rename_i hxy
      exact List.pairwise_cons.mpr
        ⟨fun z hz => by
          cases hz with
          | head => exact hxy
          | tail _ hz2 => exact strLeChars_trans hxy (hy z hz2),
         h⟩
    · rename_i hxy
      have hyx : pairKeyLe y x :=
        strLeChars_of_lt (strLtChars_of_not_le hxy)
      refine List.pairwise_cons.mpr ⟨fun z hz => ?_, ih hys⟩
      rcases mem_insertPair hz with h3 | h3
      · exact h3 ▸ hyx
      · exact hy z h3

/-- Key insertion produces a permutation of pushing in front. -/
theorem insertPair_perm (x : String × String)
    (l : List (String × String)) : (insertPair x l).Perm (x :: l) := by
  induction l with
  | nil => exact List.Perm.refl _
  | cons y ys ih =>
    unfold insertPair
    split
    · exact List.Perm.refl _
    · exact (List.Perm.cons y ih).trans (List.Perm.swap x y ys)

/-- The insertion sort permutes its input. -/
theorem sortPairs_perm (l : List (String × String)) :
    (sortPairs l).Perm l := by
  induction l with
  | nil => exact List.Perm.refl _
  | cons x xs ih =>
    exact (insertPair_perm x (sortPairs xs)).trans (List.Perm.cons x ih)

/-- The insertion sort sorts by key. -/
theorem sortPairs_sorted (l : List (String × String)) :
    List.Pairwise pairKeyLe (sortPairs l) := by
  induction l with
  | nil => exact List.Pairwise.nil
  | cons x xs ih => exact insertPair_sorted x (sortPairs xs) ih

/-- With duplicate-free keys, any two permutations of the same member
list have identical sorts: the rendered order depends only on the set of
members, not on their insertion order. -/
theorem sortPairs_perm_eq {l1 l2 : List (String × String)}
    (hp : l1.Perm l2) (hnd : (l1.map Prod.fst).Nodup) :
    sortPairs l1 = sortPairs l2 := by
  haveI : IsAntisymm (String × String) pairKeyLt :=
    ⟨fun a b h1 h2 => (strLtChars_asymm h1 h2).elim⟩
  have hs1 : (sortPairs l1).Perm l1 := sortPairs_perm l1
  have hs2 : (sortPairs l2).Perm l2 := sortPairs_perm l2
  have hperm : (sortPairs l1).Perm (sortPairs l2) :=
    (hs1.trans hp).trans hs2.symm
  have hnd1 : ((sortPairs l1).map Prod.fst).Nodup :=
    ((hs1.map Prod.fst).nodup_iff).mpr hnd
  have hnd2 : ((sortPairs l2).map Prod.fst).Nodup :=
    ((hperm.map Prod.fst).nodup_iff).mp hnd1
  have strict : ∀ (l : List (String × String)),
      List.Pairwise pairKeyLe l → (l.map Prod.fst).Nodup →
      List.Pairwise pairKeyLt l := by
    intro l hle hnd0
    have hne : l.Pairwise (fun a b : String × String => a.1 ≠ b.1) :=
      List.pairwise_map.mp hnd0
    exact (hle.and hne).imp (fun h => by
      exact strLtChars_of_le_of_ne h.1 (fun he => h.2 (String.ext he)))
  exact List.eq_of_perm_of_sorted hperm
    (strict _ (sortPairs_sorted l1) hnd1)
    (strict _ (sortPairs_sorted l2) hnd2)

/-- Helper `renderPairs` renders each member's value, keeping its key. -/
theorem renderPairs_eq_map (l : List (String × Json)) :
    renderPairs l = l.map (fun kv => (kv.1, renderJson kv.2)) := by
  induction l with
  | nil => rfl
  | cons kv rest ih =>
    rcases kv with ⟨k, v⟩
    simp only [renderPairs, List.map_cons, ih]

/-- Conversion `dvalsToJson` keeps the key list. -/
theorem dvalsToJson_keys {l : List (String × DVal)}
    {pairs : List (String × Json)} (h : dvalsToJson l = some pairs) :
    pairs.map Prod.fst = l.map Prod.fst := by
  induction l generalizing pairs with
  | nil =>
    simp only [dvalsToJson, Option.some.injEq] at h
    rw [← h]
    rfl
  | cons kv rest ih =>
    rcases kv with ⟨k, v⟩
    unfold dvalsToJson at h
    cases hv : dvalToJson v with
    | none => rw [hv] at h; simp at h
    | some j =>
      rw [hv] at h
      cases hr : dvalsToJson rest with
      | none => rw [hr] at h; simp at h
      | some js =>
        rw [hr] at h
        dsimp only at h
        injection h with h2
        rw [← h2]
        simp only [List.map_cons]
        rw [ih hr]

/-- Conversion `dvalsToJson` respects permutations: a permuted dict converts to a
permuted member list. -/
theorem dvalsToJson_perm {l1 l2 : List (String × DVal)} (hp : l1.Perm l2) :
    ∀ pairs2, dvalsToJson l2 = some pairs2 →
      ∃ pairs1, dvalsToJson l1 = some pairs1 ∧ pairs1.Perm pairs2 := by
  induction hp with
  | nil =>
    intro pairs2 h
    exact ⟨pairs2, h, List.Perm.refl _⟩
  | cons x hp ih =>
    rename_i t1 t2
    intro pairs2 h
    rcases x with ⟨k, v⟩
    cases hv : dvalToJson v with
    | none =>
      exfalso
      unfold dvalsToJson at h
      rw [hv] at h
      dsimp only at h
      exact Option.noConfusion h
    | some j =>
      cases hr : dvalsToJson t2 with
      | none =>
        exfalso
        unfold dvalsToJson at h
        rw [hv, hr] at h
        dsimp only at h
        exact Option.noConfusion h
      | some js =>
        unfold dvalsToJson at h
        rw [hv, hr] at h
        dsimp only at h
        injection h with h2
        obtain ⟨pairs1, hp1, hperm1⟩ := ih js hr
        refine ⟨(k, j) :: pairs1, ?_, ?_⟩
        · unfold dvalsToJson
          rw [hv, hp1]
        · rw [← h2]
          exact List.Perm.cons _ hperm1
  | swap x y l =>
    intro pairs2 h
    rcases x with ⟨kx, vx⟩
    rcases y with ⟨ky, vy⟩
    cases hvx : dvalToJson vx with
    | none =>
      exfalso
      simp only [dvalsToJson] at h
      rw [hvx] at h
      dsimp only at h
      exact Option.noConfusion h
    | some jx =>
      cases hvy : dvalToJson vy with
      | none =>
        exfalso
        simp only [dvalsToJson] at h
        rw [hvx, hvy] at h
        dsimp only at h
        exact Option.noConfusion h
      | some jy =>
        cases hl : dvalsToJson l with
        | none =>
          exfalso
          simp only [dvalsToJson] at h
          rw [hvx, hvy, hl] at h
          dsimp only at h
          exact Option.noConfusion h
        | some js =>
          simp only [dvalsToJson] at h
          rw [hvx, hvy, hl] at h
          dsimp only at h
          injection h with h2
          refine ⟨(ky, jy) :: (kx, jx) :: js, ?_, ?_⟩
          · simp only [dvalsToJson]
            rw [hvy, hvx, hl]
          · rw [← h2]
            exact List.Perm.swap _ _ _
  | trans hp1 hp2 ih1 ih2 =>
    intro pairs2 h
    obtain ⟨pm, hm, hpm⟩ := ih2 pairs2 h
    obtain ⟨q1, h1, hq1⟩ := ih1 pm hm
    exact ⟨q1, h1, hq1.trans hpm⟩

/-- C6. Serialization is deterministic and canonical: records with
equal field values serialize identically under the same flags; the bytes
`dump` writes are exactly the key-sorted rendering of its `val` dict; and
that rendering is invariant under any permutation of the dict's entries
(the mapping's native insertion/iteration order is immaterial, the order
being fixed by lexicographic sorting of the ordinal-prefixed keys). -/
theorem dump_serialization_deterministic (decodeLog : Blob → Option Json)
    (decodeHtml : Blob → Option String)
    (extractor : String → Blob ⊕ String → ExtractedContent) (flags : Flags)
    (p : CapturedPage) (val : List (String × DVal)) (p1 : CapturedPage)
    (c : Counts)
    (h : p.dump_val decodeLog decodeHtml extractor flags =
      (.ok val, p1, c)) :
    (∀ q : CapturedPage,
      q.locale = p.locale → q.url = p.url → q.access_time = p.access_time →
      q.result = p.result → q.detail = p.detail →
      q.redir_url = p.redir_url → q.screenshot = p.screenshot →
      q._capture_log = p._capture_log →
      q._capture_log_unpacked = p._capture_log_unpacked →
      q._html_content = p._html_content →
      q._html_content_unpacked = p._html_content_unpacked →
      q._extracted = p._extracted →
      q.dump decodeLog decodeHtml extractor flags =
        p.dump decodeLog decodeHtml extractor flags) ∧
    (p.dump decodeLog decodeHtml extractor flags).1 = dumpsOf val ∧
    (∀ l : List (String × DVal), l.Perm val → dumpsOf l = dumpsOf val) := by
  refine ⟨?_, ?_, ?_⟩
  · intro q h1 h2 h3 h4 h5 h6 h7 h8 h9 h10 h11 h12
    have hq : q = p := by
      cases q
      cases p
      simp only [CapturedPage.mk.injEq]
      exact ⟨h1, h2, h3, h4, h5, h6, h7, h8, h9, h10, h11, h12⟩
    rw [hq]
  · unfold CapturedPage.dump
    rw [h]
    dsimp only
    unfold dumpsOf
    cases hdv : dvalsToJson val <;> rfl
  · intro l hl
    have hkeys := (dump_val_ok_fields decodeLog decodeHtml extractor
      flags p val p1 c h).1
    have hnd : (val.map Prod.fst).Nodup := by
      rw [hkeys]
      decide
    unfold dumpsOf
    cases hdv : dvalsToJson val with
    | none =>
      cases hdl : dvalsToJson l with
      | none => rfl
      | some pl =>
        exfalso
        obtain ⟨pv, hv, _⟩ := dvalsToJson_perm hl.symm pl hdl
        rw [hv] at hdv
        exact Option.noConfusion hdv
    | some pairs =>
      obtain ⟨pl, hdl, hperm⟩ := dvalsToJson_perm hl pairs hdv
      rw [hdl]
      have hpermR : (renderPairs pl).Perm (renderPairs pairs) := by
        rw [renderPairs_eq_map, renderPairs_eq_map]
        exact hperm.map _
      have hndpl : (pl.map Prod.fst).Nodup := by
        rw [dvalsToJson_keys hdl]
        exact (hl.map Prod.fst).nodup_iff.mpr hnd
      have hmapeq : (renderPairs pl).map Prod.fst = pl.map Prod.fst := by
        rw [renderPairs_eq_map, List.map_map]
        rfl
      have hrender : renderJson (Json.obj pl) = renderJson (Json.obj pairs) := by
        simp only [renderJson]
        rw [sortPairs_perm_eq hpermR (hmapeq ▸ hndpl)]
      dsimp only
      rw [hrender]

/-- Concrete instantiation of `dump_serialization_deterministic`: the
`val` dict of a concrete record rendered after swapping its first two
entries yields the same bytes as in insertion order. -/
theorem dump_serialization_deterministic_holds :
    dumpsOf
      [("1_locale", DVal.jv (Json.str "l")),
       ("0_url", DVal.jv (Json.str "u")),
       ("2_access_time", DVal.jv (Json.str "2014-03-05 12:30:09")),
       ("3_result", DVal.jv (Json.str "r")),
       ("4_detail", DVal.jv Json.null),
       ("5_redir", DVal.jv Json.null),
       ("6_log", DVal.jv Json.null),
       ("7_html", DVal.jv Json.null),
       ("7_text", DVal.jv Json.null),
       ("7_rsrcs", DVal.jv Json.null),
       ("7_links", DVal.jv Json.null)] =
    dumpsOf
      [("0_url", DVal.jv (Json.str "u")),
       ("1_locale", DVal.jv (Json.str "l")),
       ("2_access_time", DVal.jv (Json.str "2014-03-05 12:30:09")),
       ("3_result", DVal.jv (Json.str "r")),
       ("4_detail", DVal.jv Json.null),
       ("5_redir", DVal.jv Json.null),
       ("6_log", DVal.jv Json.null),
       ("7_html", DVal.jv Json.null),
       ("7_text", DVal.jv Json.null),
       ("7_rsrcs", DVal.jv Json.null),
       ("7_links", DVal.jv Json.null)] :=
  (dump_serialization_deterministic (fun _ => none) (fun _ => none)
    (fun _ _ => ⟨"", [], []⟩) allFalse
    (CapturedPage.init "l" "u" ⟨2014, 3, 5, 12, 30, 9⟩ "r" none "u"
      [0] [1] none)
    [("0_url", DVal.jv (Json.str "u")),
     ("1_locale", DVal.jv (Json.str "l")),
     ("2_access_time", DVal.jv (Json.str "2014-03-05 12:30:09")),
     ("3_result", DVal.jv (Json.str "r")),
     ("4_detail", DVal.jv Json.null),
     ("5_redir", DVal.jv Json.null),
     ("6_log", DVal.jv Json.null),
     ("7_html", DVal.jv Json.null),
     ("7_text", DVal.jv Json.null),
     ("7_rsrcs", DVal.jv Json.null),
     ("7_links", DVal.jv Json.null)]
    (CapturedPage.init "l" "u" ⟨2014, 3, 5, 12, 30, 9⟩ "r" none "u"
      [0] [1] none)
    ⟨0, 0, 0⟩ rfl).2.2 _ (List.Perm.swap _ _ _)
